import Mathlib

/-!
Verification of the buildarr-radarr reconciliation core against its
natural-language specification.

The Python source is shallowly embedded: name-keyed dictionaries become
association lists (`List (String × _)`), remote JSON attribute bags become
association lists over a small value type, a Python `KeyError` or
`IndexError` becomes `Option.none`, and a raised `ValueError` or
`RuntimeError` becomes `Except.error`. Iteration order of Python dicts and
lists is kept as the list order.
-/

/-- Dictionary lookup (`d[k]` on a Python dict, first binding wins). -/
def alookup {α : Type} : List (String × α) → String → Option α
  | [], _ => none
  | (k, v) :: rest, key => if k = key then some v else alookup rest key

/-- A Python list comprehension whose element expression can raise a
`KeyError`: the first failing element aborts the whole construction. -/
def mapO {α β : Type} (f : α → Option β) : List α → Option (List β)
  | [] => some []
  | a :: as =>
    match f a, mapO f as with
    | some b, some bs => some (b :: bs)
    | _, _ => none

/-- Python dict merge of two attribute bags: keys of the base bag keep
their order with values overridden by the update bag, keys only in the
update bag are appended. -/
def merge_attrs {α : Type} (base upd : List (String × α)) : List (String × α) :=
  base.map (fun kv => (kv.1, (alookup upd kv.1).getD kv.2)) ++
    upd.filter (fun kv => (alookup base kv.1).isNone)

/-!
## Unmanaged deletion (claim C1)

`RadarrDownloadClientsSettings.delete_remote`
(src/buildarr_radarr/config/settings/download_clients/__init__.py, lines
211-240) and `RadarrQualityProfilesSettings.delete_remote`
(src/buildarr_radarr/config/settings/profiles/quality.py, lines 523-542)
share the same control flow: walk the remote definitions; a name also in
the local definitions is skipped; an unmanaged name is deleted (one
delete call) when the per-collection flag is set and only logged
otherwise; the changed flag is set exactly when a delete call is made.
The embedding returns the list of names whose delete endpoint was called,
in call order, together with the changed flag.
-/

/-- The shared body of both `delete_remote` methods. -/
def delete_remote_unmanaged (delete_unmanaged : Bool)
    (local_names remote_names : List String) : List String × Bool :=
  remote_names.foldl
    (fun acc name =>
      if local_names.contains name then acc
      else if delete_unmanaged then (acc.1 ++ [name], true) else acc)
    ([], false)

/-!
## Settings-tree orchestration order (claim C2)

`RadarrSettings.update_remote` and `RadarrSettings.delete_remote`
(src/buildarr_radarr/config/settings/__init__.py, lines 59-139 and
141-166) evaluate a Python list literal of per-section calls and fold it
with `any`, so every section runs, in the order the list is written.
The two lists below are those call sequences, by section name.
-/

/-- Section order of `RadarrSettings.update_remote`. -/
def update_remote_order : List String :=
  ["tags", "quality", "download_clients", "indexers", "media_management",
   "profiles", "lists", "connect", "metadata", "general", "ui"]

/-- Section order of `RadarrSettings.delete_remote`. -/
def delete_remote_order : List String :=
  ["profiles", "indexers", "download_clients", "media_management", "lists",
   "connect", "tags", "quality", "metadata", "general", "ui"]

/-- Position of a section in a processing order. -/
def order_index (order : List String) (section_name : String) : Nat :=
  order.indexOf section_name

/-!
## Quality profile data model and codecs (claims C3, C4, C7, C10)

From src/buildarr_radarr/config/settings/profiles/quality.py.

A local `qualities` entry is either a singular quality name or a
`QualityGroup` (a name plus member quality names, at least one member).
A remote `items` entry is either a singular quality dict
(quality record, empty items list, allowed flag) or a quality group dict
(group id, group name, allowed flag, and a nonempty items list of wrapped
member quality records). `radarr.Quality` records carry an id and a name.
-/

/-- A `radarr.Quality` record as used by the codecs. -/
structure Quality where
  id : Int
  name : String
  deriving DecidableEq, Repr

/-- One entry of a local `qualities` list: a singular quality name or a
quality group. -/
inductive QualityItem where
  | single (name : String)
  | group (name : String) (members : List String)
  deriving DecidableEq, Repr

/-- One entry of a remote quality profile `items` list. A `group` member
quality stands for the wrapped dict with that quality record, an empty
items list and allowed set to true, as produced by the encoder. -/
inductive ProfileItem where
  | singular (quality : Quality) (allowed : Bool)
  | group (id : Int) (name : String) (allowed : Bool) (members : List Quality)
  deriving DecidableEq, Repr

/-- The display name of a `qualities` entry (group name, or the quality
name itself), as read by `validate_upgrade_until_quality`. -/
def quality_name_of : QualityItem → String
  | .single n => n
  | .group n _ => n

/-- The quality names one entry contributes: the singular name, or every
group member, exactly the inner loop of `validate_qualities`. -/
def quality_member_names : QualityItem → List String
  | .single n => [n]
  | .group _ members => members

/-- All quality names of a `qualities` list in the order the nested loop
of `validate_qualities` visits them (also the enabled-set contents of
`_qualities_encoder`). -/
def all_quality_names (qualities : List QualityItem) : List String :=
  qualities.flatMap quality_member_names

/-- The duplicate scan of `validate_qualities` (lines 150-177): names are
inserted one by one into `quality_name_map`; a name already present
raises a `ValueError`. `seen` is the map key set built so far. -/
def check_no_duplicates (seen : List String) : List String → Bool
  | [] => true
  | n :: rest =>
    if seen.contains n then false else check_no_duplicates (n :: seen) rest

/-- `QualityProfile.validate_qualities`: accept the list unchanged when no
quality name occurs twice, raise a `ValueError` otherwise. -/
def validate_qualities (value : List QualityItem) :
    Except String (List QualityItem) :=
  if check_no_duplicates [] (all_quality_names value) then Except.ok value
  else Except.error "duplicate entries of quality value exist"

/-- `QualityProfile.validate_upgrade_until_quality` (lines 179-205), with
`upgrades_allowed` and `qualities` already validated: when upgrades are
disallowed the value is forced to none; otherwise it is required and must
name an enabled entry. A missing value and an empty string are both falsy
in the source check. -/
def validate_upgrade_until_quality (upgrades_allowed : Bool)
    (qualities : List QualityItem) (value : Option String) :
    Except String (Option String) :=
  if upgrades_allowed = false then Except.ok none
  else
    match value with
    | none => Except.error "required if upgrades_allowed is True"
    | some v =>
      if v = "" then Except.error "required if upgrades_allowed is True"
      else if qualities.any (fun q => quality_name_of q = v) then
        Except.ok (some v)
      else Except.error "must be set to a value enabled in qualities"

/-- The falsy branch of `_upgrade_until_quality_encoder` (lines 299-305):
the id of `qualities[0]`, a group id for a group and the quality id for a
singular name; a missing key or an empty list is a Python error (none). -/
def first_quality_id (api_qualities : List (String × Quality))
    (group_ids : List (String × Int)) : List QualityItem → Option Int
  | [] => none
  | .group name _ :: _ => alookup group_ids name
  | .single name :: _ => (alookup api_qualities name).map Quality.id

/-- `QualityProfile._upgrade_until_quality_encoder` (lines 291-310). -/
def upgrade_until_quality_encoder (api_qualities : List (String × Quality))
    (group_ids : List (String × Int)) (qualities : List QualityItem)
    (upgrade_until : Option String) : Option Int :=
  match upgrade_until with
  | none => first_quality_id api_qualities group_ids qualities
  | some v =>
    if v = "" then first_quality_id api_qualities group_ids qualities
    else
      match alookup group_ids v with
      | some gid => some gid
      | none => (alookup api_qualities v).map Quality.id

/-- The id `_upgrade_until_quality_decoder` reads from one items entry:
the top-level id of a group dict, else the wrapped quality id. -/
def item_cutoff_id : ProfileItem → Int
  | .group gid _ _ _ => gid
  | .singular q _ => q.id

/-- The name `_upgrade_until_quality_decoder` returns for one entry. -/
def item_cutoff_name : ProfileItem → String
  | .group _ name _ _ => name
  | .singular q _ => q.name

/-- `QualityProfile._upgrade_until_quality_decoder` (lines 272-289): scan
the items list in order for the entry whose id equals the cutoff and
return its name; raise a `RuntimeError` when no entry matches. -/
def upgrade_until_quality_decoder : List ProfileItem → Int → Except String String
  | [], _ =>
    Except.error "Inconsistent Radarr instance state: cutoff quality ID not found in items"
  | it :: rest, cutoff =>
    if item_cutoff_id it = cutoff then Except.ok (item_cutoff_name it)
    else upgrade_until_quality_decoder rest cutoff

/-- The allowed flag of a remote items entry. -/
def item_allowed : ProfileItem → Bool
  | .singular _ a => a
  | .group _ _ a _ => a

/-- One step of `_qualities_decoder` (lines 312-328): an entry with a
nonempty items list decodes to a quality group of the wrapped member
names; an entry with an empty items list decodes to its quality name. A
group dict with an empty items list would hit the singular branch and
raise a `KeyError` on the missing quality key (none here). -/
def decode_item : ProfileItem → Option QualityItem
  | .singular q _ => some (.single q.name)
  | .group _ _ _ [] => none
  | .group _ name _ (m :: ms) => some (.group name ((m :: ms).map Quality.name))

/-- `QualityProfile._qualities_decoder`: walk the items list in reverse,
keep allowed entries, decode each. -/
def qualities_decoder (value : List ProfileItem) : Option (List QualityItem) :=
  mapO decode_item (value.reverse.filter item_allowed)

/-- One step of the first loop of `_qualities_encoder` (lines 330-353):
a group encodes via `QualityGroup.encode` (lines 49-57) with its assigned
group id and its members wrapped through `_quality_str_encoder`; a
singular name encodes through `_quality_str_encoder` (lines 545-550)
with allowed true. A missing map key is a `KeyError` (none). -/
def item_encoder (api_qualities : List (String × Quality))
    (group_ids : List (String × Int)) : QualityItem → Option ProfileItem
  | .single name =>
    (alookup api_qualities name).map (fun q => .singular q true)
  | .group name members =>
    match alookup group_ids name, mapO (alookup api_qualities) members with
    | some gid, some qs => some (.group gid name true qs)
    | _, _ => none

/-- `QualityProfile._qualities_encoder`: encode the local entries in
order, append a disallowed singular entry for every api quality name not
enabled by the local list, and reverse the whole list. -/
def qualities_encoder (api_qualities : List (String × Quality))
    (group_ids : List (String × Int)) (qualities : List QualityItem) :
    Option (List ProfileItem) :=
  match mapO (item_encoder api_qualities group_ids) qualities with
  | none => none
  | some enabled_json =>
    some ((enabled_json ++
      (api_qualities.filter
        (fun kv => !((all_quality_names qualities).contains kv.1))).map
        (fun kv => ProfileItem.singular kv.2 false)).reverse)

/-!
## Tag reference encoding (claim C8)

`DownloadClient._get_base_remote_map`
(src/buildarr_radarr/config/settings/download_clients/base.py, lines
99-114) encodes the local tag-name set as the sorted list of their remote
ids; `Indexer._get_base_remote_map`
(src/buildarr_radarr/config/settings/indexers/base.py, lines 137-168)
encodes the tag-name list as the list of their remote ids. Either way,
a tag name missing from the `tag_ids` map raises a `KeyError`.
-/

/-- Insertion step of a Python `sorted` over integers. -/
def insert_sorted (n : Int) : List Int → List Int
  | [] => [n]
  | m :: rest => if n ≤ m then n :: m :: rest else m :: insert_sorted n rest

/-- A Python `sorted(...)` over integers. -/
def sort_ints (l : List Int) : List Int :=
  l.foldr insert_sorted []

/-- The `tags` encoder of the download client base remote map:
`sorted(tag_ids[tag] for tag in v)`. -/
def downloadclient_tags_encoder (tag_ids : List (String × Int))
    (tags : List String) : Option (List Int) :=
  (mapO (alookup tag_ids) tags).map sort_ints

/-- The `tags` encoder of the indexer base remote map:
`[tag_ids[tag] for tag in v]`. -/
def indexer_tags_encoder (tag_ids : List (String × Int))
    (tags : List String) : Option (List Int) :=
  mapO (alookup tag_ids) tags

/-!
## Download client in-place update (claim C5)

`DownloadClient._update_remote`
(src/buildarr_radarr/config/settings/download_clients/base.py, lines
162-198) asks the generic translator for the field delta against the
remote configuration, and when anything changed sends exactly one update
call whose body is the remote snapshot dict merged with the encoded
payload; otherwise it sends nothing and reports no change. The base
remote map covers `enable`, `priority` and `tags`; the source branch
merging a `fields` array only fires for variant-specific field entries,
which the base map has none of.
-/

/-- An untyped remote attribute value (a JSON scalar or id list), enough
for the attribute bags these claims touch. -/
inductive RVal where
  | bool (b : Bool)
  | int (n : Int)
  | str (s : String)
  | intList (l : List Int)
  | null
  deriving DecidableEq, Repr

/-- The local download client base configuration (base.py, lines 71-94):
`enable`, `priority` and the tag name set (kept as a list). -/
structure DownloadClientBase where
  enable : Bool
  priority : Int
  tags : List String
  deriving DecidableEq, Repr

/-- Modelled from the spec: `ConfigBase.get_update_remote_attrs` of the
buildarr core package (not part of this repository) applied to the
download client base remote map with `set_unchanged=True`. Per remote map
entry the local value is compared against the decoded remote value with
the default structural equality, encoders are applied to build the
payload, and the full payload of all entries is returned together with
the any-change flag. A tag name missing from the map is fatal (none). -/
def downloadclient_update_attrs (tag_ids : List (String × Int))
    (l r : DownloadClientBase) : Option (Bool × List (String × RVal)) :=
  match downloadclient_tags_encoder tag_ids l.tags,
        downloadclient_tags_encoder tag_ids r.tags with
  | some ltags, some rtags =>
    some
      (!(decide (l.enable = r.enable) && decide (l.priority = r.priority) &&
          decide (ltags = rtags)),
        [("enable", RVal.bool l.enable), ("priority", RVal.int l.priority),
         ("tags", RVal.intList ltags)])
  | _, _ => none

/-- `DownloadClient._update_remote`: the list of update-call bodies made
(empty or a single merged dict) and the returned changed flag. -/
def downloadclient_update_remote (tag_ids : List (String × Int))
    (l r : DownloadClientBase) (api_snapshot : List (String × RVal)) :
    Option (List (List (String × RVal)) × Bool) :=
  match downloadclient_update_attrs tag_ids l r with
  | none => none
  | some (updated, updated_attrs) =>
    if updated then some ([merge_attrs api_snapshot updated_attrs], true)
    else some ([], false)

/-!
## Quality definition reconciliation (claim C9)

`RadarrQualitySettings.update_remote`
(src/buildarr_radarr/config/settings/quality.py, lines 227-262) diffs
each local definition against the decoded remote definition over the
remote map `title`/`minSize`/`maxSize` only, with `set_unchanged=False`,
and when changed sends one update whose body is the remote snapshot dict
merged with the changed entries. The `preferred` attribute has no remote
map entry. Megabytes-per-minute sizes are modelled as integers; the
claim is about which fields are compared and pushed, not about their
arithmetic.
-/

/-- A local quality definition (quality.py, lines 43-76). -/
structure QualityDefinition where
  title : Option String
  min : Int
  preferred : Option Int
  max : Option Int
  deriving DecidableEq, Repr

/-- An optional size as a remote attribute value. -/
def opt_int_rval : Option Int → RVal
  | some n => RVal.int n
  | none => RVal.null

/-- Modelled from the spec: `get_update_remote_attrs` of the buildarr
core package (not part of this repository) applied to the quality
definition remote map of lines 245-249 with `set_unchanged=False`: each
mapped field is compared with the default structural equality, only
changed entries enter the payload (title through its
`v or definition_name` encoder), and the flag says whether any entry
changed. -/
def qualitydefinition_update_attrs (definition_name : String)
    (l r : QualityDefinition) : Bool × List (String × RVal) :=
  ((!decide (l.title = r.title) || !decide (l.min = r.min) ||
      !decide (l.max = r.max)),
    (if l.title = r.title then []
     else [("title", RVal.str (l.title.getD definition_name))]) ++
    (if l.min = r.min then [] else [("minSize", RVal.int l.min)]) ++
    (if l.max = r.max then [] else [("maxSize", opt_int_rval l.max)]))

/-- The per-definition body of `RadarrQualitySettings.update_remote`:
the update-call bodies made (empty or one merged dict) and the changed
flag contribution. -/
def qualitydefinition_update_remote (definition_name : String)
    (l r : QualityDefinition) (api_snapshot : List (String × RVal)) :
    List (List (String × RVal)) × Bool :=
  if (qualitydefinition_update_attrs definition_name l r).1 then
    ([merge_attrs api_snapshot
        (qualitydefinition_update_attrs definition_name l r).2], true)
  else ([], false)

/-!
## Polymorphic variant registries (claim C6)

`DOWNLOADCLIENT_TYPE_MAP`
(src/buildarr_radarr/config/settings/download_clients/__init__.py, lines
78-81) is keyed by each variant type's lowercased implementation string
and is read with a lowercased discriminator (line 156), while
`CONDITION_TYPE_MAP`
(src/buildarr_radarr/config/settings/custom_formats/__init__.py, lines
53-66) is keyed by the raw implementation string and is read with the
raw remote discriminator in `CustomFormat._from_remote` (lines 100-102).
A variant type is identified here by its implementation string; a
registry is built from the list of registered implementation strings.
-/

/-- Python `str.lower()` on one character (the implementation strings
are plain ASCII). -/
def lower_char (c : Char) : Char :=
  if 65 ≤ c.toNat ∧ c.toNat ≤ 90 then Char.ofNat (c.toNat + 32) else c

/-- Python `str.lower()`. -/
def lower_string (s : String) : String :=
  String.mk (s.data.map lower_char)

/-- `DOWNLOADCLIENT_TYPE_MAP` built from implementation strings. -/
def downloadclient_type_map (impls : List String) : List (String × String) :=
  impls.map (fun impl => (lower_string impl, impl))

/-- The download client variant lookup of
`RadarrDownloadClientsSettings.from_remote` and `update_remote`:
`DOWNLOADCLIENT_TYPE_MAP[implementation.lower()]`. -/
def resolve_downloadclient (impls : List String) (discriminator : String) :
    Option String :=
  alookup (downloadclient_type_map impls) (lower_string discriminator)

/-- `CONDITION_TYPE_MAP` built from implementation strings (no
lowercasing). -/
def condition_type_map (impls : List String) : List (String × String) :=
  impls.map (fun impl => (impl, impl))

/-- The condition variant lookup of `CustomFormat._from_remote`:
`CONDITION_TYPE_MAP[api_condition.implementation]`, verbatim. -/
def resolve_condition (impls : List String) (discriminator : String) :
    Option String :=
  alookup (condition_type_map impls) discriminator

/-- The implementation strings of the condition variant types registered
in `CONDITION_TYPE_MAP` whose modules are part of the staged sources
(the release-group and size condition modules are not staged; this
subset is enough to settle the lookup claim). -/
def condition_implementations : List String :=
  ["EditionSpecification", "IndexerFlagSpecification", "LanguageSpecification",
   "QualityModifierSpecification", "ReleaseTitleSpecification",
   "ResolutionSpecification", "SourceSpecification"]

/-!
## Helper lemmas about lookups, merges and option-valued maps
-/

theorem alookup_eq_none_iff {α : Type} (l : List (String × α)) (k : String) :
    alookup l k = none ↔ ∀ kv ∈ l, kv.1 ≠ k := by
  induction l with
  | nil => simp [alookup]
  | cons kv rest ih =>
    obtain ⟨k0, v0⟩ := kv
    by_cases h : k0 = k
    · subst h
      simp [alookup]
    · simp [alookup, h, ih]

theorem alookup_mem {α : Type} (l : List (String × α)) (k : String) (v : α) :
    alookup l k = some v → (k, v) ∈ l := by
  induction l with
  | nil => intro h; simp [alookup] at h
  | cons kv rest ih =>
    obtain ⟨k0, v0⟩ := kv
    by_cases h : k0 = k
    · subst h
      intro hl
      simp [alookup] at hl
      subst hl
      exact List.mem_cons_self _ _
    · intro hl
      simp [alookup, h] at hl
      exact List.mem_cons_of_mem _ (ih hl)

theorem alookup_append {α : Type} (l1 l2 : List (String × α)) (k : String) :
    alookup (l1 ++ l2) k =
      match alookup l1 k with
      | some v => some v
      | none => alookup l2 k := by
  induction l1 with
  | nil => simp [alookup]
  | cons kv rest ih =>
    obtain ⟨k0, v0⟩ := kv
    by_cases h : k0 = k
    · subst h; simp [alookup]
    · simp [alookup, h, ih]

theorem alookup_map_getD {α : Type} (base upd : List (String × α)) (k : String) :
    alookup (base.map (fun kv => (kv.1, (alookup upd kv.1).getD kv.2))) k =
      (alookup base k).map (fun v => (alookup upd k).getD v) := by
  induction base with
  | nil => simp [alookup]
  | cons kv rest ih =>
    obtain ⟨k0, v0⟩ := kv
    by_cases h : k0 = k
    · subst h; simp [alookup]
    · simp [alookup, h, ih]

theorem alookup_filter_key {α : Type} (p : String → Bool)
    (l : List (String × α)) (k : String) :
    alookup (l.filter (fun kv => p kv.1)) k =
      if p k then alookup l k else none := by
  induction l with
  | nil => simp [alookup]
  | cons kv rest ih =>
    obtain ⟨k0, v0⟩ := kv
    by_cases hp : p k0
    · by_cases h : k0 = k
      · subst h
        simp [List.filter, hp, alookup]
      · simp [List.filter, hp, alookup, h, ih]
    · by_cases h : k0 = k
      · subst h
        simp [List.filter, hp, alookup, ih]
      · simp [List.filter, hp, alookup, h, ih]

theorem alookup_merge_attrs {α : Type} (base upd : List (String × α)) (k : String) :
    alookup (merge_attrs base upd) k =
      match alookup upd k with
      | some v => some v
      | none => alookup base k := by
  unfold merge_attrs
  rw [alookup_append, alookup_map_getD,
    alookup_filter_key (fun key => (alookup base key).isNone)]
  cases hb : alookup base k with
  | none =>
    simp only [hb, Option.map_none, Option.isNone_none, if_pos rfl]
    cases alookup upd k <;> rfl
  | some w =>
    cases hu : alookup upd k with
    | none => simp [hu]
    | some v => simp [hu]

theorem mapO_some_of_all {α β : Type} (f : α → Option β) :
    ∀ l : List α, (∀ a ∈ l, (f a).isSome = true) → ∃ bs, mapO f l = some bs := by
  intro l
  induction l with
  | nil => intro _; exact ⟨[], rfl⟩
  | cons a rest ih =>
    intro h
    obtain ⟨b, hb⟩ := Option.isSome_iff_exists.mp (h a (List.mem_cons_self _ _))
    obtain ⟨bs, hbs⟩ := ih (fun x hx => h x (List.mem_cons_of_mem _ hx))
    exact ⟨b :: bs, by simp [mapO, hb, hbs]⟩

theorem mapO_eq_none_of_mem {α β : Type} (f : α → Option β) (a : α) :
    ∀ l : List α, a ∈ l → f a = none → mapO f l = none := by
  intro l
  induction l with
  | nil => intro h; simp at h
  | cons x rest ih =>
    intro hmem hfa
    rcases List.mem_cons.mp hmem with h | h
    · subst h
      simp [mapO, hfa]
    · have hrest := ih h hfa
      simp only [mapO, hrest]
      cases f x <;> rfl

theorem mapO_length {α β : Type} (f : α → Option β) :
    ∀ (l : List α) (bs : List β), mapO f l = some bs → bs.length = l.length := by
  intro l
  induction l with
  | nil => intro bs h; simp [mapO] at h; subst h; rfl
  | cons a rest ih =>
    intro bs h
    simp only [mapO] at h
    cases hfa : f a with
    | none => rw [hfa] at h; simp at h
    | some b =>
      rw [hfa] at h
      cases hrest : mapO f rest with
      | none => rw [hrest] at h; simp at h
      | some bs0 =>
        rw [hrest] at h
        simp at h
        subst h
        simp [ih bs0 hrest]

theorem delete_remote_unmanaged_skips_local
    (flag : Bool) (local_names : List String) (n : String)
    (hl : n ∈ local_names) :
    ∀ (remote_names : List String) (acc : List String × Bool),
      n ∉ acc.1 →
      n ∉ (remote_names.foldl
        (fun acc name =>
          if local_names.contains name then acc
          else if flag then (acc.1 ++ [name], true) else acc)
        acc).1 := by
  intro remote_names
  induction remote_names with
  | nil => intro acc h; exact h
  | cons name rest ih =>
    intro acc hacc
    simp only [List.foldl_cons]
    by_cases hc : local_names.contains name
    · simp only [if_pos hc]
      exact ih acc hacc
    · simp only [if_neg hc]
      cases flag with
      | false => exact ih acc hacc
      | true =>
        simp only [if_pos rfl]
        refine ih _ ?_
        intro hmem
        rcases List.mem_append.mp hmem with h | h
        · exact hacc h
        · have hn : n = name := by simpa using h
          subst hn
          exact hc (List.elem_iff.mpr hl)

/-- C1: unmanaged deletion gating. With remote definitions X and Y and a
local definition only for X, `delete_remote` with the flag off issues no
delete call and reports no change; with the flag on it issues exactly one
delete call, for Y, and reports a change; and for any flag and any
definitions, a name defined both locally and remotely is never deleted. -/
theorem delete_remote_unmanaged_gating (X Y : String) (hne : X ≠ Y) :
    delete_remote_unmanaged false [X] [X, Y] = ([], false) ∧
    delete_remote_unmanaged true [X] [X, Y] = ([Y], true) ∧
    ∀ (flag : Bool) (local_names remote_names : List String) (n : String),
      n ∈ local_names →
      n ∉ (delete_remote_unmanaged flag local_names remote_names).1 := by
  have hne' : Y ≠ X := Ne.symm hne
  refine ⟨?_, ?_, ?_⟩
  · simp [delete_remote_unmanaged, hne']
  · simp [delete_remote_unmanaged, hne']
  · intro flag local_names remote_names n hmem
    exact delete_remote_unmanaged_skips_local flag local_names n hmem
      remote_names ([], false) (by simp)

/-- Witness for C1 at the concrete names X and Y. -/
theorem delete_remote_unmanaged_gating_witness :
    delete_remote_unmanaged false ["X"] ["X", "Y"] = ([], false) ∧
    delete_remote_unmanaged true ["X"] ["X", "Y"] = (["Y"], true) ∧
    ∀ (flag : Bool) (local_names remote_names : List String) (n : String),
      n ∈ local_names →
      n ∉ (delete_remote_unmanaged flag local_names remote_names).1 :=
  delete_remote_unmanaged_gating "X" "Y" (by decide)

/-- C2 counterexample: the section sequence of the settings-tree
`delete_remote` is not the reverse of the `update_remote` sequence (the
reverse would start with the ui section, the delete sequence starts with
profiles and still ends with ui). -/
theorem settings_delete_order_not_reversed :
    delete_remote_order ≠ update_remote_order.reverse ∧
    update_remote_order.reverse.head? = some "ui" ∧
    delete_remote_order.head? = some "profiles" ∧
    delete_remote_order.getLast? = some "ui" := by decide

/-- C2 (amended): in `update_remote` every referenced section is
processed before the sections referencing it (tags before every other
section, quality before profiles, download clients before indexers), and
in `delete_remote` the referencing sections are processed before the
sections they reference (profiles and indexers before download clients);
both directions process the same set of sections, but the delete
sequence is not the exact reverse of the update sequence. -/
theorem settings_order_dependency_pairs :
    (∀ s ∈ update_remote_order, s ≠ "tags" →
      order_index update_remote_order "tags" < order_index update_remote_order s) ∧
    order_index update_remote_order "quality" <
      order_index update_remote_order "profiles" ∧
    order_index update_remote_order "download_clients" <
      order_index update_remote_order "indexers" ∧
    order_index delete_remote_order "profiles" <
      order_index delete_remote_order "download_clients" ∧
    order_index delete_remote_order "indexers" <
      order_index delete_remote_order "download_clients" ∧
    delete_remote_order.Perm update_remote_order := by decide

/-- C3: with `upgrades_allowed` false, validation forces
`upgrade_until_quality` to none whatever the input value was, and the
cutoff encoder applied to that forced none encodes the first entry of the
(nonempty) qualities list: its assigned group id for a quality group,
else the remote id of the singular quality. -/
theorem upgrades_disallowed_forces_first_cutoff
    (q : QualityItem) (rest : List QualityItem) (value : Option String)
    (api_qualities : List (String × Quality)) (group_ids : List (String × Int)) :
    validate_upgrade_until_quality false (q :: rest) value = Except.ok none ∧
    upgrade_until_quality_encoder api_qualities group_ids (q :: rest) none =
      (match q with
       | .group name _ => alookup group_ids name
       | .single name => (alookup api_qualities name).map Quality.id) := by
  refine ⟨rfl, ?_⟩
  cases q <;> rfl

theorem check_no_duplicates_iff (l : List String) :
    ∀ seen : List String, check_no_duplicates seen l = true ↔
      l.Nodup ∧ ∀ n ∈ l, n ∉ seen := by
  induction l with
  | nil => intro seen; simp [check_no_duplicates]
  | cons n rest ih =>
    intro seen
    by_cases h : seen.contains n
    · have hn : n ∈ seen := List.elem_iff.mp h
      simp only [check_no_duplicates, if_pos h]
      constructor
      · intro hfalse; exact absurd hfalse (by simp)
      · rintro ⟨-, hall⟩
        exact absurd hn (hall n (List.mem_cons_self _ _))
    · have hn : n ∉ seen := fun hmem => h (List.elem_iff.mpr hmem)
      simp only [check_no_duplicates, if_neg h]
      rw [ih (n :: seen)]
      constructor
      · rintro ⟨hnodup, hall⟩
        refine ⟨List.nodup_cons.mpr ⟨?_, hnodup⟩, ?_⟩
        · intro hmem
          exact (hall n hmem) (List.mem_cons_self _ _)
        · intro m hm
          rcases List.mem_cons.mp hm with h1 | h1
          · subst h1; exact hn
          · intro hms
            exact (hall m h1) (List.mem_cons_of_mem _ hms)
      · rintro ⟨hnodup, hall⟩
        obtain ⟨hnin, hnodup'⟩ := List.nodup_cons.mp hnodup
        refine ⟨hnodup', ?_⟩
        intro m hm hmns
        rcases List.mem_cons.mp hmns with h1 | h1
        · subst h1; exact hnin hm
        · exact (hall m (List.mem_cons_of_mem _ hm)) h1

/-- C10: `validate_qualities` accepts a qualities list exactly when the
quality names it mentions, counting both singular values and every
member of every quality group, are pairwise distinct; any name occurring
twice makes it raise a `ValueError` instead. -/
theorem validate_qualities_nodup (value : List QualityItem) :
    (validate_qualities value = Except.ok value ↔
      (all_quality_names value).Nodup) ∧
    (¬ (all_quality_names value).Nodup →
      ∃ msg, validate_qualities value = Except.error msg) := by
  have hiff : check_no_duplicates [] (all_quality_names value) = true ↔
      (all_quality_names value).Nodup := by
    rw [check_no_duplicates_iff]
    simp
  constructor
  · unfold validate_qualities
    by_cases hc : check_no_duplicates [] (all_quality_names value) = true
    · simp only [if_pos hc]
      simp [hiff.mp hc]
    · simp only [if_neg hc]
      constructor
      · intro h; exact absurd h (by simp)
      · intro h; exact absurd (hiff.mpr h) hc
  · intro h
    have hc : check_no_duplicates [] (all_quality_names value) ≠ true :=
      fun hct => h (hiff.mp hct)
    exact ⟨"duplicate entries of quality value exist",
      by unfold validate_qualities; simp [if_neg hc]⟩

/-- C7: decoding the remote cutoff id against an items list never
defaults: when no entry (group or singular quality) carries the cutoff
id, the decoder raises the inconsistent-state `RuntimeError`; when some
entry carries it, the decoder returns the name of the first such entry. -/
theorem cutoff_decoder_spec (items : List ProfileItem) (cutoff : Int) :
    ((∀ it ∈ items, item_cutoff_id it ≠ cutoff) →
      upgrade_until_quality_decoder items cutoff =
        Except.error
          "Inconsistent Radarr instance state: cutoff quality ID not found in items") ∧
    (∀ it ∈ items, item_cutoff_id it = cutoff →
      ∃ jt, jt ∈ items ∧ item_cutoff_id jt = cutoff ∧
        upgrade_until_quality_decoder items cutoff =
          Except.ok (item_cutoff_name jt)) := by
  induction items with
  | nil => exact ⟨fun _ => rfl, by simp⟩
  | cons it rest ih =>
    constructor
    · intro h
      have h1 : item_cutoff_id it ≠ cutoff := h it (List.mem_cons_self _ _)
      simp only [upgrade_until_quality_decoder, if_neg h1]
      exact ih.1 (fun jt hm => h jt (List.mem_cons_of_mem _ hm))
    · intro jt hjt hid
      by_cases h1 : item_cutoff_id it = cutoff
      · exact ⟨it, List.mem_cons_self _ _, h1,
          by simp only [upgrade_until_quality_decoder, if_pos h1]⟩
      · rcases List.mem_cons.mp hjt with h2 | h2
        · subst h2; exact absurd hid h1
        · obtain ⟨kt, hkt, hkid, hkres⟩ := ih.2 jt h2 hid
          exact ⟨kt, List.mem_cons_of_mem _ hkt, hkid,
            by simp only [upgrade_until_quality_decoder, if_neg h1]; exact hkres⟩

/-- C8: encoding the tag references of a download client or an indexer
whose tag set mentions a name absent from the tag map fails with a
`KeyError` instead of returning a payload, and a successful indexer tag
encoding keeps one id per referenced tag (nothing is dropped). -/
theorem unknown_tag_encoding_fatal (tag_ids : List (String × Int))
    (tags : List String) (t : String) (hmem : t ∈ tags)
    (habsent : alookup tag_ids t = none) :
    downloadclient_tags_encoder tag_ids tags = none ∧
    indexer_tags_encoder tag_ids tags = none ∧
    ∀ (other_tags : List String) (ids : List Int),
      indexer_tags_encoder tag_ids other_tags = some ids →
      ids.length = other_tags.length := by
  have hmap : mapO (alookup tag_ids) tags = none :=
    mapO_eq_none_of_mem (alookup tag_ids) t tags hmem habsent
  refine ⟨?_, ?_, ?_⟩
  · simp [downloadclient_tags_encoder, hmap]
  · simp [indexer_tags_encoder, hmap]
  · intro other_tags ids h
    exact mapO_length (alookup tag_ids) other_tags ids h

/-- Witness for C8: the tag map holds only the movies tag, the entity
references the anime tag as well. -/
theorem unknown_tag_encoding_fatal_witness :
    downloadclient_tags_encoder [("movies", 1)] ["movies", "anime"] = none ∧
    indexer_tags_encoder [("movies", 1)] ["movies", "anime"] = none ∧
    ∀ (other_tags : List String) (ids : List Int),
      indexer_tags_encoder [("movies", 1)] other_tags = some ids →
      ids.length = other_tags.length :=
  unknown_tag_encoding_fatal [("movies", 1)] ["movies", "anime"] "anime"
    (by decide) (by decide)

/-- C5: a download client present locally and remotely under one name,
differing from the remote snapshot only in priority, triggers exactly one
update call; the payload sent carries the new priority, every snapshot
attribute outside the base remote map (enable, priority, tags) is
preserved from the snapshot unchanged, and the call reports a change. -/
theorem priority_update_single_call (tag_ids : List (String × Int))
    (l r : DownloadClientBase) (snap : List (String × RVal))
    (henable : l.enable = r.enable) (htags : l.tags = r.tags)
    (hknown : ∀ t ∈ l.tags, (alookup tag_ids t).isSome = true)
    (hprio : l.priority ≠ r.priority) :
    ∃ payload,
      downloadclient_update_remote tag_ids l r snap = some ([payload], true) ∧
      alookup payload "priority" = some (RVal.int l.priority) ∧
      ∀ k, k ≠ "enable" → k ≠ "priority" → k ≠ "tags" →
        alookup payload k = alookup snap k := by
  obtain ⟨ids, hids⟩ := mapO_some_of_all (alookup tag_ids) l.tags hknown
  have henc : downloadclient_tags_encoder tag_ids l.tags = some (sort_ints ids) := by
    simp [downloadclient_tags_encoder, hids]
  have hencr : downloadclient_tags_encoder tag_ids r.tags = some (sort_ints ids) := by
    rw [← htags]; exact henc
  have hattrs : downloadclient_update_attrs tag_ids l r =
      some (true,
        [("enable", RVal.bool l.enable), ("priority", RVal.int l.priority),
         ("tags", RVal.intList (sort_ints ids))]) := by
    unfold downloadclient_update_attrs
    rw [henc, hencr]
    simp [henable, hprio]
  refine ⟨merge_attrs snap
    [("enable", RVal.bool l.enable), ("priority", RVal.int l.priority),
     ("tags", RVal.intList (sort_ints ids))], ?_, ?_, ?_⟩
  · unfold downloadclient_update_remote
    rw [hattrs]
    rfl
  · rw [alookup_merge_attrs]
    rfl
  · intro k h1 h2 h3
    rw [alookup_merge_attrs]
    have hupd : alookup
        [("enable", RVal.bool l.enable), ("priority", RVal.int l.priority),
         ("tags", RVal.intList (sort_ints ids))] k = none := by
      simp [alookup, Ne.symm h1, Ne.symm h2, Ne.symm h3]
    rw [hupd]

/-- Witness for C5: the Transmission scenario with remote priority 1 and
local priority 5, no tags, and remote-only snapshot attributes. -/
theorem priority_update_single_call_witness :
    ∃ payload,
      downloadclient_update_remote []
        (DownloadClientBase.mk true 5 []) (DownloadClientBase.mk true 1 [])
        [("id", RVal.int 1), ("name", RVal.str "Transmission"),
         ("enable", RVal.bool true), ("priority", RVal.int 1),
         ("protocol", RVal.str "torrent"),
         ("removeCompletedDownloads", RVal.bool true)] =
        some ([payload], true) ∧
      alookup payload "priority" = some (RVal.int 5) ∧
      ∀ k, k ≠ "enable" → k ≠ "priority" → k ≠ "tags" →
        alookup payload k =
          alookup
            [("id", RVal.int 1), ("name", RVal.str "Transmission"),
             ("enable", RVal.bool true), ("priority", RVal.int 1),
             ("protocol", RVal.str "torrent"),
             ("removeCompletedDownloads", RVal.bool true)] k :=
  priority_update_single_call []
    (DownloadClientBase.mk true 5 []) (DownloadClientBase.mk true 1 [])
    [("id", RVal.int 1), ("name", RVal.str "Transmission"),
     ("enable", RVal.bool true), ("priority", RVal.int 1),
     ("protocol", RVal.str "torrent"),
     ("removeCompletedDownloads", RVal.bool true)]
    (by decide) (by decide) (by decide) (by decide)

/-- C9: quality definition reconciliation never synchronizes the
preferred size: the delta payload only ever carries the title, minSize
and maxSize keys; when title, min and max agree, a differing preferred
value alone produces no update call and no change; and when an update
call is made, the preferredSize attribute of its body is exactly the
snapshot value. -/
theorem preferred_size_never_synced (definition_name : String)
    (l r : QualityDefinition) (snap : List (String × RVal)) :
    (∀ kv ∈ (qualitydefinition_update_attrs definition_name l r).2,
      kv.1 = "title" ∨ kv.1 = "minSize" ∨ kv.1 = "maxSize") ∧
    (l.title = r.title → l.min = r.min → l.max = r.max →
      qualitydefinition_update_remote definition_name l r snap = ([], false)) ∧
    (∀ payload,
      (qualitydefinition_update_remote definition_name l r snap).1 = [payload] →
      alookup payload "preferredSize" = alookup snap "preferredSize") := by
  have hkeys : ∀ kv ∈ (qualitydefinition_update_attrs definition_name l r).2,
      kv.1 = "title" ∨ kv.1 = "minSize" ∨ kv.1 = "maxSize" := by
    intro kv hkv
    unfold qualitydefinition_update_attrs at hkv
    simp only at hkv
    rcases List.mem_append.mp hkv with h | h
    · rcases List.mem_append.mp h with h1 | h1
      · left
        by_cases ht : l.title = r.title
        · rw [if_pos ht] at h1; simp at h1
        · rw [if_neg ht] at h1; simp at h1; simp [h1]
      · right; left
        by_cases ht : l.min = r.min
        · rw [if_pos ht] at h1; simp at h1
        · rw [if_neg ht] at h1; simp at h1; simp [h1]
    · right; right
      by_cases ht : l.max = r.max
      · rw [if_pos ht] at h; simp at h
      · rw [if_neg ht] at h; simp at h; simp [h]
  refine ⟨hkeys, ?_, ?_⟩
  · intro h1 h2 h3
    unfold qualitydefinition_update_remote qualitydefinition_update_attrs
    simp [h1, h2, h3]
  · intro payload hpay
    unfold qualitydefinition_update_remote at hpay
    by_cases hupd : (qualitydefinition_update_attrs definition_name l r).1 = true
    · rw [if_pos hupd] at hpay
      simp at hpay
      have hnone : alookup (qualitydefinition_update_attrs definition_name l r).2
          "preferredSize" = none := by
        rw [alookup_eq_none_iff]
        intro kv hkv
        rcases hkeys kv hkv with h | h | h <;> simp [h]
      rw [← hpay, alookup_merge_attrs, hnone]
    · rw [if_neg hupd] at hpay
      simp at hpay

/-- C6 counterexample: the custom-format condition registry resolves the
remote discriminator verbatim: the registered edition condition resolves
under its exact implementation string but not under a lowercased casing
of it, so condition lookup is not case-insensitive. -/
theorem condition_lookup_case_sensitive :
    "EditionSpecification" ∈ condition_implementations ∧
    resolve_condition condition_implementations "EditionSpecification" =
      some "EditionSpecification" ∧
    resolve_condition condition_implementations "editionspecification" = none := by
  decide

theorem resolve_downloadclient_casings (impl s : String) :
    ∀ impls : List String, impl ∈ impls →
      (impls.map lower_string).Nodup → lower_string s = lower_string impl →
      resolve_downloadclient impls s = some impl := by
  intro impls
  induction impls with
  | nil => intro h; simp at h
  | cons i rest ih =>
    intro hmem hnodup hcase
    rw [List.map_cons] at hnodup
    obtain ⟨hnin, hnodup'⟩ := List.nodup_cons.mp hnodup
    by_cases hi : lower_string i = lower_string s
    · have himpl : impl = i := by
        rcases List.mem_cons.mp hmem with h | h
        · exact h
        · exfalso
          apply hnin
          rw [hcase] at hi
          rw [hi]
          exact List.mem_map_of_mem lower_string h
      subst himpl
      simp [resolve_downloadclient, downloadclient_type_map, alookup, hi]
    · have himpl : impl ∈ rest := by
        rcases List.mem_cons.mp hmem with h | h
        · exfalso; apply hi; rw [h] at hcase; exact hcase.symm
        · exact h
      have := ih himpl hnodup' hcase
      simpa [resolve_downloadclient, downloadclient_type_map, alookup, hi]
        using this

/-- C6 (amended): resolving a remote implementation discriminator to a
download client variant is case-insensitive (any casing of a registered
implementation string resolves to that variant, when the lowercased
implementation strings are distinct), but resolving a custom-format
condition discriminator is case-sensitive: a registered condition
resolves under its exact implementation string, the lookup being keyed
and read verbatim. -/
theorem variant_lookup_resolution (impls : List String) (impl s : String)
    (hmem : impl ∈ impls) (hnodup : (impls.map lower_string).Nodup)
    (hcase : lower_string s = lower_string impl) :
    resolve_downloadclient impls s = some impl ∧
    ∀ (cimpls : List String) (c : String), c ∈ cimpls →
      resolve_condition cimpls c = some c := by
  refine ⟨resolve_downloadclient_casings impl s impls hmem hnodup hcase, ?_⟩
  intro cimpls c hc
  induction cimpls with
  | nil => simp at hc
  | cons i rest ih =>
    rcases List.mem_cons.mp hc with h | h
    · subst h
      simp [resolve_condition, condition_type_map, alookup]
    · by_cases hi : i = c
      · subst hi
        simp [resolve_condition, condition_type_map, alookup]
      · have := ih h
        simpa [resolve_condition, condition_type_map, alookup, hi] using this

/-- Witness for C6 at a mixed casing of the registered rtorrent download
client implementation string. -/
theorem variant_lookup_resolution_witness :
    resolve_downloadclient ["RTorrent", "Transmission"] "rTORRent" =
      some "RTorrent" ∧
    ∀ (cimpls : List String) (c : String), c ∈ cimpls →
      resolve_condition cimpls c = some c :=
  variant_lookup_resolution ["RTorrent", "Transmission"] "RTorrent" "rTORRent"
    (by decide) (by decide) (by decide)

/-- C4 counterexample: with the api_qualities map binding the key DVD to
a quality record named x (key presence as the claim demands, but the
record name differing from the key), encoding then decoding the valid
one-entry qualities list DVD yields the list x, not the original: the
decoder reads the name out of the stored quality record, so mere key
presence does not give a round trip. -/
theorem qualities_codec_not_roundtrip :
    (alookup [("DVD", Quality.mk 2 "x")] "DVD").isSome = true ∧
    qualities_encoder [("DVD", Quality.mk 2 "x")] [] [QualityItem.single "DVD"] =
      some [ProfileItem.singular (Quality.mk 2 "x") true] ∧
    qualities_decoder [ProfileItem.singular (Quality.mk 2 "x") true] =
      some [QualityItem.single "x"] ∧
    QualityItem.single "x" ≠ QualityItem.single "DVD" := by decide

/-- Whether one local `qualities` entry can be encoded at all: its
singular name (or each group member) is a key of the api_qualities map,
and a group is nonempty with an assigned group id. -/
def quality_item_encodable (api_qualities : List (String × Quality))
    (group_ids : List (String × Int)) : QualityItem → Bool
  | .single n => (alookup api_qualities n).isSome
  | .group name members =>
    !members.isEmpty && (alookup group_ids name).isSome &&
      members.all (fun m => (alookup api_qualities m).isSome)

theorem mapO_alookup_names (api_qualities : List (String × Quality))
    (hmap : ∀ kv ∈ api_qualities, (kv.2).name = kv.1) :
    ∀ (members : List String) (qs : List Quality),
      mapO (alookup api_qualities) members = some qs →
      qs.map Quality.name = members := by
  intro members
  induction members with
  | nil => intro qs h; simp [mapO] at h; subst h; rfl
  | cons m rest ih =>
    intro qs h
    simp only [mapO] at h
    cases hm : alookup api_qualities m with
    | none => rw [hm] at h; simp at h
    | some q =>
      rw [hm] at h
      cases hrest : mapO (alookup api_qualities) rest with
      | none => rw [hrest] at h; simp at h
      | some qs0 =>
        rw [hrest] at h
        simp at h
        subst h
        have hq : q.name = m := hmap (m, q) (alookup_mem api_qualities m q hm)
        simp [hq, ih qs0 hrest]

theorem item_encoder_roundtrip (api_qualities : List (String × Quality))
    (group_ids : List (String × Int))
    (hmap : ∀ kv ∈ api_qualities, (kv.2).name = kv.1) :
    ∀ q : QualityItem, quality_item_encodable api_qualities group_ids q = true →
      ∃ e, item_encoder api_qualities group_ids q = some e ∧
        item_allowed e = true ∧ decode_item e = some q := by
  intro q hok
  cases q with
  | single n =>
    simp only [quality_item_encodable] at hok
    obtain ⟨qq, hqq⟩ := Option.isSome_iff_exists.mp hok
    have hname : qq.name = n := hmap (n, qq) (alookup_mem api_qualities n qq hqq)
    refine ⟨ProfileItem.singular qq true, ?_, rfl, ?_⟩
    · simp [item_encoder, hqq]
    · simp [decode_item, hname]
  | group name members =>
    simp only [quality_item_encodable, Bool.and_eq_true, List.all_eq_true] at hok
    obtain ⟨⟨hne, hgid⟩, hmembers⟩ := hok
    obtain ⟨gid, hgid'⟩ := Option.isSome_iff_exists.mp hgid
    obtain ⟨qs, hqs⟩ := mapO_some_of_all (alookup api_qualities) members hmembers
    have hnames : qs.map Quality.name = members :=
      mapO_alookup_names api_qualities hmap members qs hqs
    refine ⟨ProfileItem.group gid name true qs, ?_, rfl, ?_⟩
    · simp [item_encoder, hgid', hqs]
    · cases qs with
      | nil =>
        exfalso
        rw [← hnames] at hne
        simp at hne
      | cons q0 qrest =>
        simp only [decode_item]
        rw [hnames]

theorem qualities_mapO_roundtrip (api_qualities : List (String × Quality))
    (group_ids : List (String × Int))
    (hmap : ∀ kv ∈ api_qualities, (kv.2).name = kv.1) :
    ∀ qs : List QualityItem,
      (∀ q ∈ qs, quality_item_encodable api_qualities group_ids q = true) →
      ∃ es, mapO (item_encoder api_qualities group_ids) qs = some es ∧
        (∀ e ∈ es, item_allowed e = true) ∧ mapO decode_item es = some qs := by
  intro qs
  induction qs with
  | nil => intro _; exact ⟨[], rfl, by simp, rfl⟩
  | cons q rest ih =>
    intro h
    obtain ⟨e, he, hea, hed⟩ := item_encoder_roundtrip api_qualities group_ids
      hmap q (h q (List.mem_cons_self _ _))
    obtain ⟨es, hes, hesa, hesd⟩ := ih (fun x hx => h x (List.mem_cons_of_mem _ hx))
    refine ⟨e :: es, ?_, ?_, ?_⟩
    · simp only [mapO, he, hes]
    · intro x hx
      rcases List.mem_cons.mp hx with h1 | h1
      · subst h1; exact hea
      · exact hesa x h1
    · simp only [mapO, hed, hesd]

/-- C4 (amended): the qualities codec round-trips for every valid
qualities list whose referenced names are keys of the api_qualities map,
when additionally every api_qualities binding maps its key to a quality
record bearing that same name (which the claim as stated does not
require): decoding the encoded items list reproduces the original local
qualities list exactly, in the same priority order, each group with the
same name and the same members. -/
theorem qualities_codec_roundtrip (api_qualities : List (String × Quality))
    (group_ids : List (String × Int)) (qualities : List QualityItem)
    (hmap : ∀ kv ∈ api_qualities, (kv.2).name = kv.1)
    (hok : ∀ q ∈ qualities,
      quality_item_encodable api_qualities group_ids q = true) :
    ∃ encoded,
      qualities_encoder api_qualities group_ids qualities = some encoded ∧
      qualities_decoder encoded = some qualities := by
  obtain ⟨es, hes, hesa, hesd⟩ :=
    qualities_mapO_roundtrip api_qualities group_ids hmap qualities hok
  refine ⟨(es ++
    (api_qualities.filter
      (fun kv => !((all_quality_names qualities).contains kv.1))).map
      (fun kv => ProfileItem.singular kv.2 false)).reverse, ?_, ?_⟩
  · unfold qualities_encoder
    rw [hes]
  · unfold qualities_decoder
    rw [List.reverse_reverse, List.filter_append]
    have h1 : es.filter item_allowed = es := List.filter_eq_self.mpr hesa
    have h2 : ((api_qualities.filter
        (fun kv => !((all_quality_names qualities).contains kv.1))).map
        (fun kv => ProfileItem.singular kv.2 false)).filter item_allowed = [] := by
      rw [List.filter_eq_nil_iff]
      intro e he
      obtain ⟨kv, -, hkv⟩ := List.mem_map.mp he
      rw [← hkv]
      simp [item_allowed]
    rw [h1, h2, List.append_nil]
    exact hesd

/-- Witness for C4 at the SDTV scenario list with a quality group, over a
name-consistent api_qualities map. -/
theorem qualities_codec_roundtrip_witness :
    ∃ encoded,
      qualities_encoder
        [("Bluray-480p", Quality.mk 3 "Bluray-480p"), ("DVD", Quality.mk 2 "DVD"),
         ("WEBDL-480p", Quality.mk 8 "WEBDL-480p"),
         ("WEBRip-480p", Quality.mk 9 "WEBRip-480p"), ("SDTV", Quality.mk 1 "SDTV")]
        [("WEB 480p", 1001)]
        [QualityItem.single "Bluray-480p", QualityItem.single "DVD",
         QualityItem.group "WEB 480p" ["WEBDL-480p", "WEBRip-480p"],
         QualityItem.single "SDTV"] = some encoded ∧
      qualities_decoder encoded =
        some [QualityItem.single "Bluray-480p", QualityItem.single "DVD",
          QualityItem.group "WEB 480p" ["WEBDL-480p", "WEBRip-480p"],
          QualityItem.single "SDTV"] :=
  qualities_codec_roundtrip
    [("Bluray-480p", Quality.mk 3 "Bluray-480p"), ("DVD", Quality.mk 2 "DVD"),
     ("WEBDL-480p", Quality.mk 8 "WEBDL-480p"),
     ("WEBRip-480p", Quality.mk 9 "WEBRip-480p"), ("SDTV", Quality.mk 1 "SDTV")]
    [("WEB 480p", 1001)]
    [QualityItem.single "Bluray-480p", QualityItem.single "DVD",
     QualityItem.group "WEB 480p" ["WEBDL-480p", "WEBRip-480p"],
     QualityItem.single "SDTV"]
    (by decide) (by decide)
